import Mathlib

/-!
Verification of the usbX handle-registry specification.

The shipped sources contain `src/main.c` (a uthash smoke test) and the
TDD test files `test_add_handle.c` / `test_add_handle_extended.c`, which
declare the registry interface (`add_handle`, globals `handles`,
`next_handle_id`) whose implementation (`main_handle_refactored.c`) is
absent from the tree.  The registry operations are therefore modelled
from the specification, faithful to its words and to the declarations
and assertions in the test files; the uthash smoke test in `main.c` is
embedded directly from the source.
-/

namespace UsbX

/-- Entry record of the registry, from the `HandleEntry` struct declared in
`test_add_handle.c` (fields `handle_id` and `device_handle`; the
`UT_hash_handle hh` field is uthash bookkeeping and carries no data).
`R` is the opaque resource type (`libusb_device_handle *` in the source). -/
structure HandleEntry (R : Type) where
  handle_id : Int
  device_handle : R
deriving DecidableEq, Repr

/-- Registry state, from the spec's `RegistryState` and the globals declared
in the test files: `handles` is the uthash table (modelled as the list of
live entries keyed on their `handle_id` field) and `next_handle_id` is the
allocation counter.  The `guard` mutex serialises access and is not part of
the sequential state. -/
structure RegistryState (R : Type) where
  handles : List (HandleEntry R)
  next_handle_id : Int
deriving DecidableEq, Repr

/-- Error taxonomy from spec section 7. -/
inductive RegError where
  | IdSpaceExhausted
  | UnknownHandle
deriving DecidableEq, Repr

variable {R : Type}

/-- Modelled from the spec: fresh `RegistryState` — empty table and
`next_id: integer counter, starts at 1`. -/
def initState : RegistryState R :=
  ⟨[], 1⟩

/-- Modelled from the spec: `register` (named `add_handle` in the test
files; the implementation file is missing from the tree).  If the counter
has been driven to a negative value (the exhausted sentinel observed by
`test_id_overflow`, which sets `next_handle_id = -1`), it returns the
distinguished error value `-1` and mutates nothing; otherwise it allocates
`id = next_handle_id`, inserts `HandleEntry{id, resource}` into the table,
increments the counter and returns `id`.  The resource is an opaque token
that is never validated or inspected. -/
def add_handle (s : RegistryState R) (r : R) : Int × RegistryState R :=
  if s.next_handle_id < 0 then
    (-1, s)
  else
    (s.next_handle_id,
      ⟨⟨s.next_handle_id, r⟩ :: s.handles, s.next_handle_id + 1⟩)

/-- Modelled from the spec: `lookup` (implementation missing from the
tree).  Performs a membership check under the guard and returns the stored
resource if `id` is a key in the table, not-found otherwise; it does not
mutate state, so the state component of the result is the input state. -/
def lookup (s : RegistryState R) (id : Int) : Option R × RegistryState R :=
  ((s.handles.find? fun e => e.handle_id == id).map
      (fun e => e.device_handle), s)

/-- Modelled from the spec: `release` (implementation missing from the
tree).  If `id` is present it removes the entry (freeing only the entry,
never the resource) and succeeds; if absent it fails with
`UnknownHandle`. -/
def release (s : RegistryState R) (id : Int) :
    Except RegError (RegistryState R) :=
  if s.handles.any (fun e => e.handle_id == id) then
    .ok ⟨s.handles.eraseP (fun e => e.handle_id == id), s.next_handle_id⟩
  else
    .error .UnknownHandle

/-- One registry call, for stating temporal properties over sequences of
operations. -/
inductive Op (R : Type) where
  | reg (r : R)
  | rel (id : Int)
  | look (id : Int)
deriving DecidableEq

/-- State transition of a single call: `reg` and `rel` update the state on
success and leave it unchanged on failure; `look` never changes it. -/
def step (s : RegistryState R) : Op R → RegistryState R
  | .reg r => (add_handle s r).2
  | .rel id =>
    match release s id with
    | .ok s2 => s2
    | .error _ => s
  | .look id => (lookup s id).2

/-- Run a sequence of registry calls. -/
def run (s : RegistryState R) (ops : List (Op R)) : RegistryState R :=
  ops.foldl step s

/-- A sequence of `add_handle` calls (one linearisation of concurrent
registering threads, per the spec's guard serialisation): returns the list
of issued IDs and the final state. -/
def add_all (s : RegistryState R) (rs : List R) :
    List Int × RegistryState R :=
  match rs with
  | [] => ([], s)
  | r :: rest =>
    let p := add_handle s r
    let q := add_all p.2 rest
    (p.1 :: q.1, q.2)

/-- Invariant on reachable registry states: the counter stays in the valid
positive range (I2 territory: it starts at 1 and only increments), live
entries have pairwise distinct ids (I3), and every live id was allocated
below the current counter and is a valid positive id.  I1 — every table key
equals the `id` field of its entry — holds by construction here: the table
is keyed on the `handle_id` field itself, exactly as uthash keys on the
struct member. -/
def Inv (s : RegistryState R) : Prop :=
  1 ≤ s.next_handle_id ∧
  s.handles.Pairwise (fun a b => a.handle_id ≠ b.handle_id) ∧
  ∀ e ∈ s.handles, 1 ≤ e.handle_id ∧ e.handle_id < s.next_handle_id

instance (s : RegistryState R) [DecidableEq R] : Decidable (Inv s) := by
  unfold Inv
  exact inferInstance

/-- Modelled from `src/main.c`: the `device_handle` struct used by the
uthash smoke test (`handle_id` key, `device_ptr` payload; the pointer is
represented by its numeric value). -/
structure device_handle where
  handle_id : Int
  device_ptr : Nat
deriving DecidableEq, Repr

/-- uthash `HASH_ADD_INT`: append the entry to the table (uthash keeps
insertion order; the table is keyed on the `handle_id` field). -/
def HASH_ADD_INT (tbl : List device_handle) (h : device_handle) :
    List device_handle :=
  tbl ++ [h]

/-- uthash `HASH_FIND_INT`: find the entry whose key field equals the
queried integer, or null. -/
def HASH_FIND_INT (tbl : List device_handle) (key : Int) :
    Option device_handle :=
  tbl.find? fun e => e.handle_id == key

/-- uthash `HASH_DEL`: remove the given entry from the table. -/
def HASH_DEL (tbl : List device_handle) (h : device_handle) :
    List device_handle :=
  tbl.erase h

/-- C `EXIT_SUCCESS`. -/
def EXIT_SUCCESS : Int := 0

/-- The `main` of `src/main.c` in the minimal build (without `USE_DEPS`),
stripped of printing: builds an empty table, inserts the test handle
`{handle_id = 1, device_ptr = 0xDEADBEEF}`, looks it up by its own key,
deletes it again and returns `EXIT_SUCCESS` on every path (the
found/not-found branch only selects which message is printed).  The result
records the exit code and the outcome of the `HASH_FIND_INT` call. -/
def main_minimal : Int × Option device_handle :=
  let handles : List device_handle := []
  let handle : device_handle := ⟨1, 0xDEADBEEF⟩
  let handles := HASH_ADD_INT handles handle
  let found_handle := HASH_FIND_INT handles handle.handle_id
  let _handles := HASH_DEL handles handle
  (EXIT_SUCCESS, found_handle)

/-- Characterisation of a successful `add_handle` call: the counter is not
in the exhausted (negative) range, so the call returns the current counter
value and prepends the new entry. -/
theorem add_handle_success (s : RegistryState R) (r : R)
    (h : 0 ≤ s.next_handle_id) :
    add_handle s r =
      (s.next_handle_id,
        ⟨⟨s.next_handle_id, r⟩ :: s.handles, s.next_handle_id + 1⟩) := by
  unfold add_handle
  rw [if_neg (by omega)]

/-- Characterisation of an exhausted `add_handle` call. -/
theorem add_handle_exhausted (s : RegistryState R) (r : R)
    (h : s.next_handle_id < 0) :
    add_handle s r = (-1, s) := by
  unfold add_handle
  rw [if_pos h]

/-- Characterisation of a successful `release`: the counter is untouched
and the matching entry is erased from the table. -/
theorem release_next {s s2 : RegistryState R} {id : Int}
    (hok : release s id = .ok s2) :
    s2.next_handle_id = s.next_handle_id ∧
      s2.handles = s.handles.eraseP (fun e => e.handle_id == id) := by
  unfold release at hok
  split at hok
  · injection hok with h4
    subst h4
    exact ⟨rfl, rfl⟩
  · simp at hok

/-- The fresh registry satisfies the invariant. -/
theorem inv_initState : Inv (initState : RegistryState R) := by
  refine ⟨le_refl 1, List.Pairwise.nil, ?_⟩
  intro e he
  simp [initState] at he

/-- `add_handle` preserves the invariant on both its branches. -/
theorem inv_add_handle {s : RegistryState R} (h : Inv s) (r : R) :
    Inv (add_handle s r).2 := by
  obtain ⟨h1, h2, h3⟩ := h
  by_cases hc : s.next_handle_id < 0
  · rw [add_handle_exhausted s r hc]
    exact ⟨h1, h2, h3⟩
  · rw [add_handle_success s r (by omega)]
    unfold Inv
    dsimp only
    refine ⟨by omega, ?_, ?_⟩
    · refine List.pairwise_cons.mpr ⟨?_, h2⟩
      intro b hb
      have := (h3 b hb).2
      dsimp only
      omega
    · intro e he
      rcases List.mem_cons.mp he with rfl | he2
      · dsimp only
        omega
      · have := h3 e he2
        constructor <;> omega

/-- In a table with pairwise distinct ids, after erasing the entry with a
given id no remaining entry carries that id. -/
theorem not_mem_eraseP_self {l : List (HandleEntry R)}
    (hp : l.Pairwise fun a b => a.handle_id ≠ b.handle_id) (id : Int) :
    ∀ e ∈ l.eraseP (fun x => x.handle_id == id), e.handle_id ≠ id := by
  induction hp with
  | nil =>
    intro e he
    simp [List.eraseP_nil] at he
  | @cons a l ha _ ih =>
    by_cases hc : a.handle_id = id
    · rw [List.eraseP_cons_of_pos (by simp [hc])]
      intro e he
      have := ha e he
      omega
    · rw [List.eraseP_cons_of_neg (by simp [hc])]
      intro e he
      rcases List.mem_cons.mp he with rfl | he2
      · exact hc
      · exact ih e he2

/-- In a table with pairwise distinct ids, `find?` on the id of a member
entry returns exactly that entry. -/
theorem find_unique_of_mem {l : List (HandleEntry R)}
    (hp : l.Pairwise fun a b => a.handle_id ≠ b.handle_id)
    {e : HandleEntry R} (he : e ∈ l) :
    (l.find? fun x => x.handle_id == e.handle_id) = some e := by
  induction l with
  | nil => cases he
  | cons a l ih =>
    rcases List.mem_cons.mp he with rfl | he2
    · exact List.find?_cons_of_pos l (by simp)
    · have hne : a.handle_id ≠ e.handle_id :=
        (List.pairwise_cons.mp hp).1 e he2
      rw [List.find?_cons_of_neg l (by simp [hne]),
        ih (List.pairwise_cons.mp hp).2 he2]

/-- A successful `release` preserves the invariant. -/
theorem inv_release {s s2 : RegistryState R} {id : Int} (h : Inv s)
    (hok : release s id = .ok s2) : Inv s2 := by
  obtain ⟨h1, h2, h3⟩ := h
  obtain ⟨hn, hh⟩ := release_next hok
  refine ⟨?_, ?_, ?_⟩
  · rw [hn]
    exact h1
  · rw [hh]
    exact h2.eraseP _
  · intro e he
    rw [hh] at he
    rw [hn]
    exact h3 e (List.mem_of_mem_eraseP he)

/-- Every single call preserves the invariant and never decreases the
counter. -/
theorem inv_step {s : RegistryState R} (h : Inv s) (op : Op R) :
    Inv (step s op) ∧ s.next_handle_id ≤ (step s op).next_handle_id := by
  cases op with
  | reg r =>
    have h1 := h.1
    refine ⟨inv_add_handle h r, ?_⟩
    show s.next_handle_id ≤ (add_handle s r).2.next_handle_id
    rw [add_handle_success s r (by omega)]
    simp only []
    omega
  | rel id =>
    simp only [step]
    cases hrel : release s id with
    | ok s2 =>
      exact ⟨inv_release h hrel, le_of_eq (release_next hrel).1.symm⟩
    | error e => exact ⟨h, le_refl _⟩
  | look id => exact ⟨h, le_refl _⟩

/-- Any sequence of calls preserves the invariant and never decreases the
counter. -/
theorem inv_run {s : RegistryState R} (h : Inv s) (ops : List (Op R)) :
    Inv (run s ops) ∧ s.next_handle_id ≤ (run s ops).next_handle_id := by
  induction ops generalizing s with
  | nil => exact ⟨h, le_refl _⟩
  | cons op ops ih =>
    have hs := inv_step h op
    have ht := ih hs.1
    exact ⟨ht.1, le_trans hs.2 ht.2⟩

/-- A live entry survives any single call that is not a release of its own
id. -/
theorem mem_step_of_ne_rel {s : RegistryState R} (h : Inv s)
    {e : HandleEntry R} (he : e ∈ s.handles) (op : Op R)
    (hne : op ≠ .rel e.handle_id) : e ∈ (step s op).handles := by
  cases op with
  | reg r =>
    have h1 := h.1
    show e ∈ (add_handle s r).2.handles
    rw [add_handle_success s r (by omega)]
    exact List.mem_cons_of_mem _ he
  | rel id =>
    have hid : e.handle_id ≠ id := by
      intro hcontr
      exact hne (by rw [hcontr])
    simp only [step]
    cases hrel : release s id with
    | ok s2 =>
      rw [(release_next hrel).2]
      exact (List.mem_eraseP_of_neg (by simp [hid])).mpr he
    | error err => exact he
  | look id => exact he

/-- A live entry survives any sequence of calls that contains no release
of its own id. -/
theorem mem_run_of_no_rel {s : RegistryState R} (h : Inv s)
    {e : HandleEntry R} (he : e ∈ s.handles) {ops : List (Op R)}
    (hno : Op.rel e.handle_id ∉ ops) : e ∈ (run s ops).handles := by
  induction ops generalizing s with
  | nil => exact he
  | cons op ops ih =>
    have h1 : op ≠ Op.rel e.handle_id := by
      intro hcontr
      exact hno (hcontr ▸ List.mem_cons_self op ops)
    exact ih (inv_step h op).1 (mem_step_of_ne_rel h he op h1)
      (fun hm => hno (List.mem_cons_of_mem _ hm))

/-- Full characterisation of a batch of `add_handle` calls from an
invariant state: the invariant is preserved, the counter advances by
exactly the number of calls, every call succeeds with an id in the window
between the old and the new counter value, and the issued ids are pairwise
distinct. -/
theorem add_all_spec {s : RegistryState R} (h : Inv s) (rs : List R) :
    Inv (add_all s rs).2 ∧
    (add_all s rs).2.next_handle_id = s.next_handle_id + rs.length ∧
    (add_all s rs).1.length = rs.length ∧
    (∀ i ∈ (add_all s rs).1,
      s.next_handle_id ≤ i ∧ i < s.next_handle_id + rs.length) ∧
    (add_all s rs).1.Nodup := by
  induction rs generalizing s with
  | nil =>
    refine ⟨h, by simp [add_all], by simp [add_all], ?_, by simp [add_all]⟩
    intro i hi
    simp [add_all] at hi
  | cons r rest ih =>
    have h1 := h.1
    have hinv1 : Inv (add_handle s r).2 := inv_add_handle h r
    obtain ⟨ha, hb, hc, hd, hn⟩ := ih hinv1
    have hnext1 : (add_handle s r).2.next_handle_id = s.next_handle_id + 1 := by
      rw [add_handle_success s r (by omega)]
    have hfst : (add_handle s r).1 = s.next_handle_id := by
      rw [add_handle_success s r (by omega)]
    refine ⟨ha, ?_, ?_, ?_, ?_⟩
    · show (add_all (add_handle s r).2 rest).2.next_handle_id =
        s.next_handle_id + ((r :: rest).length : Int)
      rw [hb, hnext1]
      simp only [List.length_cons]
      push_cast
      ring
    · show ((add_handle s r).1 ::
          (add_all (add_handle s r).2 rest).1).length = (r :: rest).length
      simp [hc]
    · show ∀ i ∈ (add_handle s r).1 :: (add_all (add_handle s r).2 rest).1,
        s.next_handle_id ≤ i ∧
          i < s.next_handle_id + ((r :: rest).length : Int)
      intro i hi
      simp only [List.length_cons]
      rcases List.mem_cons.mp hi with rfl | hi2
      · rw [hfst]
        push_cast
        omega
      · have := hd i hi2
        rw [hnext1] at this
        push_cast at this ⊢
        omega
    · show ((add_handle s r).1 ::
          (add_all (add_handle s r).2 rest).1).Nodup
      refine List.nodup_cons.mpr ⟨?_, hn⟩
      intro hmem
      have := (hd _ hmem).1
      rw [hnext1, hfst] at this
      omega

/-- C1: if the internal counter has been driven into the exhausted state
(a negative value), the next `add_handle` call returns the distinguished
error value `-1` instead of a valid ID and mutates neither the table nor
the counter; in particular the table size is unchanged. -/
theorem register_exhausted_fails (s : RegistryState R) (r : R)
    (h : s.next_handle_id < 0) :
    (add_handle s r).1 = -1 ∧ (add_handle s r).2 = s ∧
      (add_handle s r).2.handles.length = s.handles.length := by
  rw [add_handle_exhausted s r h]
  exact ⟨rfl, rfl, rfl⟩

theorem register_exhausted_fails_witness :
    (⟨[], -1⟩ : RegistryState (Option Nat)).next_handle_id < 0 ∧
      ((add_handle (⟨[], -1⟩ : RegistryState (Option Nat)) none).1 = -1 ∧
        (add_handle (⟨[], -1⟩ : RegistryState (Option Nat)) none).2 =
          ⟨[], -1⟩ ∧
        (add_handle
            (⟨[], -1⟩ : RegistryState (Option Nat)) none).2.handles.length =
          (⟨[], -1⟩ : RegistryState (Option Nat)).handles.length) :=
  ⟨by decide, register_exhausted_fails _ none (by decide)⟩

/-- C2: two successful `add_handle` calls — with any sequence of
operations in between that releases neither resulting ID (in fact with any
intermediate operations at all) — return different IDs, and the second ID
is distinct from the id of every entry live at the moment it is issued. -/
theorem register_ids_unique (s : RegistryState R) (r1 r2 : R)
    (ops : List (Op R)) (i1 i2 : Int) (s1 t s2 : RegistryState R)
    (h : Inv s) (h1 : add_handle s r1 = (i1, s1)) (ht : run s1 ops = t)
    (h2 : add_handle t r2 = (i2, s2)) :
    i1 ≠ i2 ∧ ∀ e ∈ t.handles, e.handle_id ≠ i2 := by
  have hA := h.1
  rw [add_handle_success s r1 (by omega)] at h1
  injection h1 with h1a h1b
  have hs1inv : Inv s1 := by
    have h' := inv_add_handle h r1
    rw [add_handle_success s r1 (by omega)] at h'
    rw [← h1b]
    exact h'
  have hs1next : s1.next_handle_id = s.next_handle_id + 1 := by
    rw [← h1b]
  subst ht
  obtain ⟨htinv, hmono⟩ := inv_run hs1inv ops
  have ht1 := htinv.1
  rw [add_handle_success (run s1 ops) r2 (by omega)] at h2
  injection h2 with h2a h2b
  constructor
  · rw [← h1a, ← h2a]
    omega
  · intro e he
    have := htinv.2.2 e he
    rw [← h2a]
    omega

theorem register_ids_unique_witness :
    Inv (initState : RegistryState (Option Nat)) ∧
      add_handle (initState : RegistryState (Option Nat)) none =
        (1, ⟨[⟨1, none⟩], 2⟩) ∧
      run (⟨[⟨1, none⟩], 2⟩ : RegistryState (Option Nat)) [] =
        ⟨[⟨1, none⟩], 2⟩ ∧
      add_handle (⟨[⟨1, none⟩], 2⟩ : RegistryState (Option Nat)) none =
        (2, ⟨[⟨2, none⟩, ⟨1, none⟩], 3⟩) ∧
      ((1 : Int) ≠ 2 ∧
        ∀ e ∈ (⟨[⟨1, none⟩], 2⟩ :
            RegistryState (Option Nat)).handles, e.handle_id ≠ 2) :=
  ⟨by decide, by decide, by decide, by decide,
    register_ids_unique initState none none [] 1 2
      (⟨[⟨1, none⟩], 2⟩ : RegistryState (Option Nat))
      (⟨[⟨1, none⟩], 2⟩ : RegistryState (Option Nat))
      (⟨[⟨2, none⟩, ⟨1, none⟩], 3⟩ : RegistryState (Option Nat))
      (by decide) (by decide) (by decide) (by decide)⟩

/-- C3: from any reachable state (counter at least 1) `add_handle`
succeeds for every resource — the resource is never validated or rejected,
so a null resource is accepted too — returning an ID at least 1, not the
error value `-1`, and inserting the new entry into the table. -/
theorem register_accepts_any_resource (s : RegistryState R) (r : R)
    (h : 1 ≤ s.next_handle_id) :
    1 ≤ (add_handle s r).1 ∧ (add_handle s r).1 ≠ -1 ∧
      (add_handle s r).2.handles =
        ⟨(add_handle s r).1, r⟩ :: s.handles := by
  have e1 : (add_handle s r).1 = s.next_handle_id := by
    rw [add_handle_success s r (by omega)]
  have e2 : (add_handle s r).2.handles =
      ⟨s.next_handle_id, r⟩ :: s.handles := by
    rw [add_handle_success s r (by omega)]
  rw [e1, e2]
  exact ⟨h, by omega, rfl⟩

theorem register_accepts_any_resource_witness :
    1 ≤ (initState : RegistryState (Option Nat)).next_handle_id ∧
      (1 ≤ (add_handle (initState : RegistryState (Option Nat)) none).1 ∧
        (add_handle (initState : RegistryState (Option Nat)) none).1 ≠ -1 ∧
        (add_handle (initState : RegistryState (Option Nat)) none).2.handles =
          ⟨(add_handle (initState : RegistryState (Option Nat)) none).1,
            none⟩ :: (initState : RegistryState (Option Nat)).handles) :=
  ⟨by decide, register_accepts_any_resource _ none (by decide)⟩

/-- C4: if `add_handle s r` succeeds with ID `i`, then after any further
sequence of operations that does not release `i`, `lookup i` still returns
exactly `r`. -/
theorem register_lookup_roundtrip (s : RegistryState R) (r : R)
    (i : Int) (s1 : RegistryState R) (ops : List (Op R)) (h : Inv s)
    (hreg : add_handle s r = (i, s1)) (hno : Op.rel i ∉ ops) :
    (lookup (run s1 ops) i).1 = some r := by
  have hA := h.1
  rw [add_handle_success s r (by omega)] at hreg
  injection hreg with ha hb
  have hs1inv : Inv s1 := by
    have h' := inv_add_handle h r
    rw [add_handle_success s r (by omega)] at h'
    rw [← hb]
    exact h'
  have hmem : (⟨i, r⟩ : HandleEntry R) ∈ s1.handles := by
    rw [← hb, ← ha]
    exact List.mem_cons_self _ _
  have hrunmem := mem_run_of_no_rel hs1inv hmem (hno : Op.rel i ∉ ops)
  have htinv := (inv_run hs1inv ops).1
  have hfind2 : ((run s1 ops).handles.find? fun x => x.handle_id == i) =
      some ⟨i, r⟩ := find_unique_of_mem htinv.2.1 hrunmem
  show ((run s1 ops).handles.find? fun x => x.handle_id == i).map
      (fun e => e.device_handle) = some r
  rw [hfind2]
  rfl

theorem register_lookup_roundtrip_witness :
    Inv (initState : RegistryState (Option Nat)) ∧
      add_handle (initState : RegistryState (Option Nat)) (some 42) =
        (1, ⟨[⟨1, some 42⟩], 2⟩) ∧
      Op.rel 1 ∉ [Op.reg (none : Option Nat), Op.look 1, Op.rel 2] ∧
      (lookup
          (run (⟨[⟨1, some 42⟩], 2⟩ : RegistryState (Option Nat))
            [Op.reg none, Op.look 1, Op.rel 2]) 1).1 = some (some 42) :=
  ⟨by decide, by decide, by decide,
    register_lookup_roundtrip initState (some 42) 1
      (⟨[⟨1, some 42⟩], 2⟩ : RegistryState (Option Nat))
      [Op.reg none, Op.look 1, Op.rel 2]
      (by decide) (by decide) (by decide)⟩

/-- C5: after a successful `release id`, `lookup id` reports not-found and
a second `release id` fails with `UnknownHandle` instead of being silently
ignored. -/
theorem release_correctness (s : RegistryState R) (id : Int)
    (s2 : RegistryState R) (h : Inv s) (hok : release s id = .ok s2) :
    (lookup s2 id).1 = none ∧
      release s2 id = .error .UnknownHandle := by
  obtain ⟨hn, hh⟩ := release_next hok
  have hnotin : ∀ e ∈ s2.handles, e.handle_id ≠ id := by
    rw [hh]
    exact not_mem_eraseP_self h.2.1 id
  constructor
  · show (s2.handles.find? fun e => e.handle_id == id).map
      (fun e => e.device_handle) = none
    rw [List.find?_eq_none.mpr fun e he => by simpa using hnotin e he]
    rfl
  · have hany : ¬(s2.handles.any (fun e => e.handle_id == id) = true) := by
      rw [List.any_eq_true]
      rintro ⟨e, he, hpe⟩
      exact hnotin e he (by simpa using hpe)
    unfold release
    rw [if_neg hany]

theorem release_correctness_witness :
    Inv (⟨[⟨1, some 7⟩], 2⟩ : RegistryState (Option Nat)) ∧
      release (⟨[⟨1, some 7⟩], 2⟩ : RegistryState (Option Nat)) 1 =
        .ok ⟨[], 2⟩ ∧
      ((lookup (⟨[], 2⟩ : RegistryState (Option Nat)) 1).1 = none ∧
        release (⟨[], 2⟩ : RegistryState (Option Nat)) 1 =
          .error .UnknownHandle) :=
  ⟨by decide, by rfl,
    release_correctness (⟨[⟨1, some 7⟩], 2⟩ : RegistryState (Option Nat)) 1
      (⟨[], 2⟩ : RegistryState (Option Nat)) (by decide) (by rfl)⟩

/-- C6: on the fresh registry (counter starts at 1) the first `add_handle`
call returns 1 and the second returns 2 — IDs are allocated sequentially
from the counter starting at 1. -/
theorem fresh_registry_first_ids :
    (add_handle (initState : RegistryState (Option Nat)) none).1 = 1 ∧
      (add_handle
        (add_handle (initState : RegistryState (Option Nat)) none).2
        none).1 = 2 := by
  constructor <;> rfl

/-- C7: every registry call (`add_handle`, `lookup`, `release`), whether
it succeeds or fails, leads from an invariant state to an invariant state;
in particular I3 — no two live entries share an id — holds after every
call.  I1 — every table key equals the `id` field of its entry — holds by
construction: the table is keyed on the `handle_id` field itself. -/
theorem ops_preserve_invariants (s : RegistryState R) (h : Inv s)
    (op : Op R) :
    Inv (step s op) ∧
      List.Pairwise (fun a b => a.handle_id ≠ b.handle_id)
        (step s op).handles := by
  have hstep := (inv_step h op).1
  exact ⟨hstep, hstep.2.1⟩

theorem ops_preserve_invariants_witness :
    Inv (initState : RegistryState (Option Nat)) ∧
      (Inv (step (initState : RegistryState (Option Nat)) (.reg none)) ∧
        List.Pairwise (fun a b => a.handle_id ≠ b.handle_id)
          (step (initState : RegistryState (Option Nat))
            (.reg none)).handles) :=
  ⟨by decide, ops_preserve_invariants _ (by decide) _⟩

/-- C8: `lookup` does not mutate any registry state — for every id,
present or absent, the resulting state (table and counter alike) is
identical to the input state. -/
theorem lookup_does_not_mutate (s : RegistryState R) (id : Int) :
    (lookup s id).2 = s :=
  rfl

/-- C9: any serialisation of K threads each performing N `add_handle`
calls (the guard linearises concurrent calls, so every concurrent
execution is some such sequence of K×N calls) issues exactly K×N pairwise
distinct IDs, each at least 1, and advances the counter by exactly K×N —
no duplicates and no lost updates. -/
theorem concurrent_register_distinct (s : RegistryState R) (rs : List R)
    (h : Inv s) :
    (add_all s rs).1.Nodup ∧
      (add_all s rs).1.length = rs.length ∧
      (∀ i ∈ (add_all s rs).1, 1 ≤ i) ∧
      (add_all s rs).2.next_handle_id =
        s.next_handle_id + rs.length := by
  obtain ⟨ha, hb, hc, hd, hn⟩ := add_all_spec h rs
  refine ⟨hn, hc, ?_, hb⟩
  intro i hi
  have h1 := h.1
  have := (hd i hi).1
  omega

theorem concurrent_register_distinct_witness :
    Inv (initState : RegistryState (Option Nat)) ∧
      ((add_all (initState : RegistryState (Option Nat))
          (List.replicate 15 none)).1.Nodup ∧
        (add_all (initState : RegistryState (Option Nat))
          (List.replicate 15 none)).1.length =
            (List.replicate 15 (none : Option Nat)).length ∧
        (∀ i ∈ (add_all (initState : RegistryState (Option Nat))
          (List.replicate 15 none)).1, 1 ≤ i) ∧
        (add_all (initState : RegistryState (Option Nat))
            (List.replicate 15 none)).2.next_handle_id =
          (initState : RegistryState (Option Nat)).next_handle_id +
            (List.replicate 15 (none : Option Nat)).length) :=
  ⟨by decide, concurrent_register_distinct _ _ (by decide)⟩

/-- C10: the minimal-build `main` of `src/main.c` (without `USE_DEPS`)
returns `EXIT_SUCCESS` on every path, and the entry inserted with
`HASH_ADD_INT` under key `handle_id = 1` is found again by the subsequent
`HASH_FIND_INT` on the same key. -/
theorem main_minimal_returns_success :
    main_minimal = (EXIT_SUCCESS, some ⟨1, 0xDEADBEEF⟩) ∧
      HASH_FIND_INT (HASH_ADD_INT [] ⟨1, 0xDEADBEEF⟩) 1 =
        some ⟨1, 0xDEADBEEF⟩ := by
  constructor <;> rfl

end UsbX
